import Mathlib

/-!
Shallow embedding of the Web_Scrapper repository's content-extraction and
PDF-rendering pipeline (src/Script.py and src/playwright_scraper.py), with
theorems settling the frozen claims about it.

Python strings are modelled as Lean `String`s, with the Python string
operations the code uses (strip, startswith, single-character replace, join)
implemented explicitly over the underlying character lists so that their
semantics match CPython's.
-/

namespace Scraper

/-- Models Python `str.startswith(p)`: `p` is a literal prefix of `s`. -/
def pyStartsWith (s p : String) : Bool :=
  p.data.isPrefixOf s.data

/-- Characters removed by Python `str.strip()` with no arguments
(ASCII whitespace; the rare unicode space characters are irrelevant here). -/
def isPySpace (c : Char) : Bool :=
  c = ' ' || c = '\t' || c = '\n' || c = '\r' || c = '\x0b' || c = '\x0c'

/-- Models Python `str.strip()`: drop whitespace from both ends. -/
def pyStrip (s : String) : String :=
  .mk (((s.data.dropWhile isPySpace).reverse.dropWhile isPySpace).reverse)

/-- Models Python `sep.join(parts)`. -/
def pyJoin (sep : String) (parts : List String) : String :=
  .mk (List.intercalate sep.data (parts.map String.data))

/-- Models Python `str.split(sep)` for a single-character separator. -/
def pySplitChar (c : Char) : List Char → List (List Char)
  | [] => [[]]
  | d :: rest =>
    let r := pySplitChar c rest
    if d = c then [] :: r
    else
      match r with
      | [] => [[d]]
      | h :: t => (d :: h) :: t

/-- Models Python `text.replace(k, r)` for a single-character pattern `k`:
every occurrence of the character is replaced by the string `r`. -/
def replaceCharData (k : Char) (r : List Char) : List Char → List Char
  | [] => []
  | c :: rest => (if c = k then r else [c]) ++ replaceCharData k r rest

/-- The parsed node tree handed back by the markup parser: either a bare
text node (a `NavigableString`, whose `name` is `None`) or an element with a
tag name, an attribute list and child nodes. -/
inductive Node where
  | text (s : String) : Node
  | elem (name : String) (attrs : List (String × String)) (children : List Node) : Node

/-- Children of a node; a text node has none. -/
def childrenOf : Node → List Node
  | .text _ => []
  | .elem _ _ cs => cs

/-- Models BeautifulSoup `get_text()` on a forest: the concatenation of all
descendant text, in document order. -/
def getTextData : List Node → List Char
  | [] => []
  | .text s :: rest => s.data ++ getTextData rest
  | .elem _ _ cs :: rest => getTextData cs ++ getTextData rest

/-- Models BeautifulSoup `node.get_text()`. -/
def getText (n : Node) : String :=
  .mk (getTextData [n])

/-- Models BeautifulSoup `find_all(...)` over a forest: all element nodes
satisfying `p`, in document (pre-order) order.  Text nodes never match a
tag-name query. -/
def findAllList (p : Node → Bool) : List Node → List Node
  | [] => []
  | .text _ :: rest => findAllList p rest
  | .elem nm a cs :: rest =>
    (if p (.elem nm a cs) then [.elem nm a cs] else [])
      ++ findAllList p cs ++ findAllList p rest

/-- Like `findAllList`, but each found element is paired with the list of its
following siblings, which is what the `next_sibling` chain walked by
`extract_associated_content` iterates over. -/
def findAllCtx (p : Node → Bool) : List Node → List (Node × List Node)
  | [] => []
  | .text _ :: rest => findAllCtx p rest
  | .elem nm a cs :: rest =>
    (if p (.elem nm a cs) then [(.elem nm a cs, rest)] else [])
      ++ findAllCtx p cs ++ findAllCtx p rest

/-- Models BeautifulSoup `find(...)`: the first match of `find_all`. -/
def findNode (p : Node → Bool) (roots : List Node) : Option Node :=
  (findAllList p roots).head?

/-- Attribute lookup `tag[k]` / `tag.get(k)` on a node. -/
def getAttr (n : Node) (k : String) : Option String :=
  match n with
  | .text _ => none
  | .elem _ attrs _ => attrs.lookup k

/-- Models BeautifulSoup `tag.string`: the single text child (recursing
through a single element child); `None` when the node has zero or several
children. -/
def nodeString : Node → Option String
  | .text s => some s
  | .elem _ _ [c] => nodeString c
  | .elem _ _ _ => none

/-! ## TextSanitizer: `clean_text` (src/Script.py lines 141-169,
src/playwright_scraper.py lines 103-117) -/

/-- The fixed replacement table of `clean_text`, in the source's insertion
order (Python dicts iterate in insertion order). -/
def replacements : List (Char × String) :=
  [('→', "->"), ('←', "<-"), ('–', "-"), ('—', "--"),
   ('‘', "'"), ('’', "'"), ('“', "\""), ('”', "\""),
   ('•', "*"), ('…', "...")]

/-- The `for unicode_char, ascii_char in replacements.items(): text =
text.replace(...)` loop of `clean_text`. -/
def applyReplacementsData (l : List Char) : List Char :=
  replacements.foldl (fun acc p => replaceCharData p.1 p.2.data acc) l

/-- Latin-1 can represent exactly the code points 0-255; this is the test
`text.encode('latin-1')` performs per character. -/
def isLatin1 (c : Char) : Bool :=
  c.toNat ≤ 255

/-- Models `clean_text`: empty (or `None`) input yields `""`; otherwise the
replacement table is applied and every character Latin-1 cannot represent is
dropped.  The Python code first tries `text.encode('latin-1')` and returns
`text` unchanged on success, falling back to `encode('latin-1',
errors='ignore').decode('latin-1')`; both branches coincide with filtering
out the non-Latin-1 characters, since the filter is the identity exactly when
the encode succeeds. -/
def clean_text (text : String) : String :=
  if text = "" then ""
  else .mk ((applyReplacementsData text.data).filter isLatin1)

/-! ## Link normalization: `normalize_url` (src/Script.py lines 137-139,
src/playwright_scraper.py lines 100-101) and a model of
`urllib.parse.urljoin` -/

/-- Scheme of an absolute URL: the characters before the first `:`
(as `urllib.parse.urlsplit` reads it for a well-formed absolute URL). -/
def urlScheme (base : String) : String :=
  .mk (base.data.takeWhile (fun c => c != ':'))

/-- Network location of an absolute URL `scheme://netloc/...`: the
characters after `scheme://` up to the first `/`, `?` or `#`. -/
def urlNetloc (base : String) : String :=
  .mk (((base.data.drop ((base.data.takeWhile (fun c => c != ':')).length + 3)).takeWhile
    (fun c => c != '/' && c != '?' && c != '#')))

/-- The segment-resolution loop of `urllib.parse.urljoin`: `..` pops the
accumulated segments (ignoring underflow), `.` is skipped, anything else is
appended. -/
def resolveSegs (segs : List (List Char)) : List (List Char) :=
  segs.foldl
    (fun acc seg =>
      if seg = ['.', '.'] then acc.dropLast
      else if seg = ['.'] then acc
      else acc ++ [seg]) []

/-- Dot-segment resolution of an absolute path, as `urllib.parse.urljoin`
performs it: split on `/`, run `resolveSegs`, re-append a trailing empty
segment when the path ended in `.` or `..`, rejoin, defaulting to `/`. -/
def removeDotSegments (path : List Char) : List Char :=
  let segs := pySplitChar '/' path
  let res := resolveSegs segs
  let res2 :=
    match segs.getLast? with
    | some s => if s = ['.'] || s = ['.', '.'] then res ++ [[]] else res
    | none => res
  let j := List.intercalate ['/'] res2
  if j = [] then ['/'] else j

/-- Modelled from `urllib.parse.urljoin(base, url)`, restricted to how
`normalize_url` calls it: `url` starts with `/` and `base` is the page's
absolute `http(s)` URL.  A protocol-relative `//host/...` reference keeps the
base's scheme; a root-relative `/...` reference keeps the base's scheme and
network location and has its dot segments resolved. -/
def urljoin (base url : String) : String :=
  if pyStartsWith url "//" then urlScheme base ++ ":" ++ url
  else urlScheme base ++ "://" ++ urlNetloc base ++ .mk (removeDotSegments url.data)

/-- Models `normalize_url` of both pipelines: resolve against the page URL
only when the destination starts with `/`, otherwise pass it through. -/
def normalize_url (selfUrl url : String) : String :=
  if pyStartsWith url "/" then urljoin selfUrl url else url

/-! ## MetadataExtractor (src/Script.py lines 45-47,
src/playwright_scraper.py lines 31-33) -/

/-- The metadata record the pipeline builds for a page. -/
structure PageMetadata where
  title : String
  url : String
  description : String
deriving DecidableEq

/-- Matches `soup.title`: the first element named `title`. -/
def isTitleNode (n : Node) : Bool :=
  match n with
  | .elem nm _ _ => nm = "title"
  | .text _ => false

/-- Matches `soup.find('meta', attrs={'name': 'description'})`. -/
def isDescMeta (n : Node) : Bool :=
  match n with
  | .elem nm attrs _ => nm = "meta" && attrs.lookup "name" == some "description"
  | .text _ => false

/-- Models the metadata extraction of `extract_content`:
`title = self.soup.title.string.strip() if self.soup.title else "No Title"`
and
`meta_desc = meta_desc['content'].strip() if meta_desc else "No Description"`.
A present `title` element whose `.string` is `None` makes `.strip()` raise
`AttributeError`, and a present description meta without a `content`
attribute makes the subscript raise `KeyError`; both are modelled as
`Except.error`. -/
def extract_metadata (roots : List Node) (url : String) : Except String PageMetadata :=
  match findNode isTitleNode roots with
  | some t =>
    match nodeString t with
    | none => .error "AttributeError"
    | some s => continueWithTitle roots url (pyStrip s)
  | none => continueWithTitle roots url "No Title"
where
  continueWithTitle (roots : List Node) (url title : String) : Except String PageMetadata :=
    match findNode isDescMeta roots with
    | some m =>
      match getAttr m "content" with
      | none => .error "KeyError"
      | some c => .ok ⟨title, url, pyStrip c⟩
    | none => .ok ⟨title, url, "No Description"⟩

/-! ## SectionExtractor (src/Script.py lines 58-65 and 80-97,
src/playwright_scraper.py lines 41-48 and 59-71) -/

/-- One heading/body section of the extracted document.  The body is the
single string produced by joining the collected lines, exactly as
`"\n".join(content)` returns it. -/
structure Section where
  heading : String
  body : String
deriving DecidableEq

/-- Matches `soup.find_all(['h1', 'h2', 'h3', 'h4', 'h5', 'h6'])`. -/
def isHeadingNode (n : Node) : Bool :=
  match n with
  | .elem nm _ _ => ["h1", "h2", "h3", "h4", "h5", "h6"].contains nm
  | .text _ => false

/-- Matches `find_all('li')`. -/
def isLiNode (n : Node) : Bool :=
  match n with
  | .elem nm _ _ => nm = "li"
  | .text _ => false

/-- The `while next_elem:` loop of `extract_associated_content`, over the
heading's following siblings: stop at an element whose name starts with `h`
(`next_elem.name.startswith('h')`), collect a `p` element's stripped text,
collect one `- `-prefixed line per `li` found inside a `ul`, and skip
everything else (including bare text siblings, whose `name` is `None`). -/
def gatherBody : List Node → List String
  | [] => []
  | .text _ :: rest => gatherBody rest
  | .elem nm _a cs :: rest =>
    if pyStartsWith nm "h" then []
    else if nm = "p" then pyStrip (.mk (getTextData cs)) :: gatherBody rest
    else if nm = "ul" then
      ((findAllList isLiNode cs).map fun li => "- " ++ pyStrip (getText li))
        ++ gatherBody rest
    else gatherBody rest

/-- Models `extract_associated_content(heading)`, as a function of the
heading's following siblings. -/
def extract_associated_content (siblings : List Node) : String :=
  pyJoin "\n" (gatherBody siblings)

/-- Models the heading loop of `extract_content`: one Section per element
`find_all(['h1'..'h6'])` returns, with its stripped text and the content
associated through the sibling walk. -/
def extract_sections (roots : List Node) : List Section :=
  (findAllCtx isHeadingNode roots).map fun pr =>
    ⟨pyStrip (getText pr.1), extract_associated_content pr.2⟩

/-! ## LinkExtractor (src/Script.py lines 67-75 and 128-135) -/

/-- One extracted hyperlink. -/
structure Link where
  displayText : String
  targetUrl : String
deriving DecidableEq

/-- Models `is_valid_link(href)`. -/
def is_valid_link (href : String) : Bool :=
  !pyStartsWith href "javascript:" && !pyStartsWith href "mailto:"
    && !pyStartsWith href "tel:" && pyStrip href != "#"

/-- Matches `soup.find_all('a', href=True)`: anchors whose `href` attribute
is present — BeautifulSoup's `True` value matches any present attribute,
including the empty string. -/
def isAnchorWithHref (n : Node) : Bool :=
  match n with
  | .elem nm attrs _ => nm = "a" && (attrs.lookup "href").isSome
  | .text _ => false

/-- Models the link loop of `extract_content`: for every anchor carrying an
`href`, keep it when `is_valid_link` accepts the raw `href`; the display
text is `link.get_text().strip() or link['href']` and the target is
`normalize_url(link['href'])`. -/
def extract_links (baseUrl : String) (roots : List Node) : List Link :=
  (findAllList isAnchorWithHref roots).filterMap fun a =>
    match getAttr a "href" with
    | none => none
    | some href =>
      if is_valid_link href then
        some ⟨if pyStrip (getText a) = "" then href else pyStrip (getText a),
              normalize_url baseUrl href⟩
      else none

/-! ## TabDiscoverer (src/Script.py lines 99-126,
src/playwright_scraper.py lines 73-90) -/

/-- One entry of the tabbed-content section. -/
structure TabEntry where
  label : String
  content : String
deriving DecidableEq

/-- Outcome of handling one tab control against the live session: either the
interaction succeeds, yielding the tab's label text and the text of the
visible panel after the click, or some step of it raises. -/
inductive TabStep where
  | ok (name panelText : String) : TabStep
  | fail : TabStep
deriving DecidableEq

/-- The `for` loop of `extract_tab_content`, run inside the `try:` block:
each successful step appends an entry when the stripped panel text is
non-empty; the first raising step aborts the loop, and the `except ...: pass`
keeps whatever was already appended to `self.tab_data`. -/
def tabLoop : List TabStep → List TabEntry → List TabEntry
  | [], acc => acc
  | .fail :: _, acc => acc
  | .ok name panel :: rest, acc =>
    tabLoop rest (if pyStrip panel != "" then acc ++ [⟨pyStrip name, pyStrip panel⟩] else acc)

/-- Models `extract_tab_content`, with the live browser session abstracted
into the outcome script of the interactions: `none` means locating the tab
controls itself raised (in src/Script.py the `WebDriverWait` times out when
zero `[role="tab"]` elements exist, which the `except` turns into zero
tabs); `some steps` gives the per-tab outcomes in document order. -/
def extract_tab_content : Option (List TabStep) → List TabEntry
  | none => []
  | some steps => tabLoop steps []

/-! ## PdfRenderer: `generate_pdf` (src/Script.py lines 171-212,
src/playwright_scraper.py lines 119-157) -/

/-- One item of `self.content_data`, in the order `extract_content` appends
them. -/
inductive ContentItem where
  | metadata (title url desc : String) : ContentItem
  | headingContent (heading content : String) : ContentItem
  | link (text url : String) : ContentItem
deriving DecidableEq

/-- One layout command issued to the FPDF collaborator.  Geometry arguments
(cell width/height, borders, alignment) are dropped; the text, fonts,
colors and page breaks the claims speak about are kept. -/
inductive PdfCmd where
  | addPage : PdfCmd
  | setFont (family style : String) (size : Nat) : PdfCmd
  | cell (text : String) : PdfCmd
  | multiCell (text : String) : PdfCmd
  | setTextColor (r g b : Nat) : PdfCmd
  | ln (h : Nat) : PdfCmd
deriving DecidableEq

/-- The metadata block at the top of `generate_pdf` (src/Script.py lines
175-180). -/
def metaBlock (title url desc : String) : List PdfCmd :=
  [.setFont "Arial" "B" 16, .cell (clean_text title),
   .setFont "Arial" "" 12, .cell (clean_text url), .cell (clean_text desc), .ln 10]

/-- The commands the `for item in self.content_data:` loop emits for one
item (src/Script.py lines 183-193): the metadata item matches neither
branch and emits nothing. -/
def itemCmds : ContentItem → List PdfCmd
  | .metadata _ _ _ => []
  | .headingContent h c =>
    [.setFont "Arial" "B" 14, .cell (clean_text h),
     .setFont "Arial" "" 12, .multiCell (clean_text c), .ln 5]
  | .link t u =>
    [.setTextColor 0 0 255, .cell (clean_text (t ++ " -> " ++ u)), .setTextColor 0 0 0]

/-- The `if self.tab_data:` block (src/Script.py lines 196-207): a forced
page break and a "Tabbed Content" title, then each tab's label and content. -/
def tabBlock (tabs : List TabEntry) : List PdfCmd :=
  if tabs = [] then []
  else
    [.addPage, .setFont "Arial" "B" 16, .cell "Tabbed Content", .ln 5]
      ++ tabs.flatMap fun tab =>
        [.setFont "Arial" "B" 14, .cell (clean_text tab.label),
         .setFont "Arial" "" 12, .multiCell (clean_text tab.content), .ln 5]

/-- Is this item the metadata record?  (`item['type'] == 'metadata'`). -/
def isMetadataItem : ContentItem → Bool
  | .metadata _ _ _ => true
  | _ => false

/-- Models `generate_pdf` as the sequence of layout commands it issues:
`next(item for item in self.content_data if item['type'] == 'metadata')`
raises `StopIteration` when no metadata item exists; otherwise the metadata
block, the item loop and the tab block run in order. -/
def generate_pdf (content_data : List ContentItem) (tab_data : List TabEntry) :
    Except String (List PdfCmd) :=
  match content_data.find? isMetadataItem with
  | some (.metadata t u d) =>
    .ok (metaBlock t u d ++ content_data.flatMap itemCmds ++ tabBlock tab_data)
  | _ => .error "StopIteration"

/-! ## Helper lemmas about `clean_text` -/

theorem replaceCharData_eq_self (k : Char) (r : List Char) :
    ∀ l : List Char, (∀ c ∈ l, c ≠ k) → replaceCharData k r l = l := by
  intro l h
  induction l with
  | nil => rfl
  | cons c rest ih =>
    rw [replaceCharData, if_neg (h c (by simp))]
    rw [ih (fun d hd => h d (by simp [hd]))]
    rfl

theorem foldl_replaceCharData_eq_self (tbl : List (Char × String)) (l : List Char)
    (htbl : ∀ p ∈ tbl, isLatin1 p.1 = false)
    (hl : ∀ c ∈ l, isLatin1 c = true) :
    tbl.foldl (fun acc p => replaceCharData p.1 p.2.data acc) l = l := by
  induction tbl with
  | nil => rfl
  | cons p rest ih =>
    rw [List.foldl_cons, replaceCharData_eq_self p.1 p.2.data l ?_]
    · exact ih fun q hq => htbl q (by simp [hq])
    · intro c hc he
      have h1 := hl c hc
      have h2 := htbl p (by simp)
      rw [he, h2] at h1
      exact Bool.false_ne_true h1

theorem applyReplacementsData_eq_self (l : List Char)
    (hl : ∀ c ∈ l, isLatin1 c = true) : applyReplacementsData l = l :=
  foldl_replaceCharData_eq_self replacements l (by decide) hl

theorem clean_text_output_latin1 (x : String) :
    ∀ c ∈ (clean_text x).data, isLatin1 c = true := by
  intro c hc
  by_cases hx : x = ""
  · rw [clean_text, if_pos hx] at hc
    exact absurd hc (List.not_mem_nil c)
  · rw [clean_text, if_neg hx] at hc
    have hc2 : c ∈ (applyReplacementsData x.data).filter isLatin1 := hc
    exact (List.mem_filter.mp hc2).2

/-- C4: `clean_text` (the sanitizer) is a total function of its string
argument (it is defined for every `String`, the empty string standing in for
Python's `None`), it returns the empty string on empty input, and it is
idempotent: sanitizing twice equals sanitizing once. -/
theorem clean_text_total_idempotent :
    ∀ x : String, clean_text (clean_text x) = clean_text x ∧ clean_text "" = "" := by
  intro x
  refine ⟨?_, rfl⟩
  by_cases hy : clean_text x = ""
  · rw [hy]
    rfl
  · have hdata := clean_text_output_latin1 x
    conv_lhs => rw [clean_text]
    rw [if_neg hy, applyReplacementsData_eq_self _ hdata,
      List.filter_eq_self.mpr hdata]

/-- C5: every character `clean_text` outputs is representable in Latin-1
(code point at most 255); the fixed typographic-replacement table is applied
first and maps only to ASCII (code points at most 127), and for non-empty
input the result is exactly the table-rewritten text with every remaining
non-Latin-1 character dropped (filtered out, not substituted). -/
theorem clean_text_latin1_representable :
    ∀ text : String,
      (∀ c ∈ (clean_text text).data, c.toNat ≤ 255) ∧
      (text ≠ "" →
        clean_text text = .mk ((applyReplacementsData text.data).filter isLatin1)) ∧
      (∀ p ∈ replacements, ∀ c ∈ p.2.data, c.toNat ≤ 127) := by
  intro text
  refine ⟨fun c hc => ?_, fun h => by rw [clean_text, if_neg h], by decide⟩
  have h1 := clean_text_output_latin1 text c hc
  exact of_decide_eq_true h1

/-- Witness for C5 at a concrete input: the arrow is rewritten to `->` and
the CJK character is dropped. -/
theorem clean_text_latin1_representable_witness :
    ('-' : Char).toNat ≤ 255 ∧
      clean_text "→一" = .mk ((applyReplacementsData "→一".data).filter isLatin1) :=
  ⟨(clean_text_latin1_representable "→一").1 '-' (by decide),
   (clean_text_latin1_representable "→一").2.1 (by decide)⟩

/-! ## C1: metadata extraction -/

/-- C1 counterexample: the claim says an absent-or-empty description defaults
to `"No Description"` and that extraction never fails.  On the code, a
description meta whose `content` is whitespace yields the empty string (the
default is only used when the node is absent), and a `<title></title>`
element (whose `.string` is `None`) makes the extraction raise. -/
theorem extract_metadata_claim_counterexample :
    extract_metadata [.elem "meta" [("name", "description"), ("content", "   ")] []] "u"
        = .ok ⟨"No Title", "u", ""⟩ ∧
      ("" : String) ≠ "No Description" ∧
      extract_metadata [.elem "title" [] []] "u" = .error "AttributeError" := by
  refine ⟨?_, by decide, ?_⟩
  · simp [extract_metadata, extract_metadata.continueWithTitle, findNode, findAllList,
      isTitleNode, isDescMeta, getAttr, List.lookup]
    decide
  · simp [extract_metadata, extract_metadata.continueWithTitle, findNode, findAllList,
      isTitleNode, isDescMeta, getAttr, nodeString]

/-- Amended-claim side condition: the first title element, when present,
has a `.string` (so `.strip()` will not raise). -/
def titleStringOk (roots : List Node) : Bool :=
  match findNode isTitleNode roots with
  | none => true
  | some t => (nodeString t).isSome

/-- Amended-claim side condition: the first description meta, when present,
carries a `content` attribute (so the subscript will not raise). -/
def descContentOk (roots : List Node) : Bool :=
  match findNode isDescMeta roots with
  | none => true
  | some m => (getAttr m "content").isSome

/-- Amended-claim title: trimmed `.string` of the first title element,
defaulting to `"No Title"` only when the element is absent. -/
def titleResult (roots : List Node) : String :=
  match findNode isTitleNode roots with
  | none => "No Title"
  | some t => pyStrip ((nodeString t).getD "")

/-- Amended-claim description: trimmed `content` of the first description
meta, defaulting to `"No Description"` only when that node is absent — an
empty-after-trim `content` stays the empty string. -/
def descResult (roots : List Node) : String :=
  match findNode isDescMeta roots with
  | none => "No Description"
  | some m => pyStrip ((getAttr m "content").getD "")

/-- C1 amended: on every tree whose title element (if any) has a string and
whose description meta (if any) has a `content` attribute, extraction
succeeds with the defaults applied exactly when the nodes are absent. -/
theorem extract_metadata_amended (roots : List Node) (url : String)
    (h1 : titleStringOk roots = true) (h2 : descContentOk roots = true) :
    extract_metadata roots url = .ok ⟨titleResult roots, url, descResult roots⟩ := by
  simp only [titleStringOk] at h1
  simp only [descContentOk] at h2
  cases ht : findNode isTitleNode roots with
  | none =>
    cases hm : findNode isDescMeta roots with
    | none =>
      simp [extract_metadata, extract_metadata.continueWithTitle, titleResult,
        descResult, ht, hm]
    | some m =>
      rw [hm] at h2
      simp only [] at h2
      obtain ⟨c, hc⟩ := Option.isSome_iff_exists.mp h2
      simp [extract_metadata, extract_metadata.continueWithTitle, titleResult,
        descResult, ht, hm, hc]
  | some t =>
    rw [ht] at h1
    simp only [] at h1
    obtain ⟨s, hs⟩ := Option.isSome_iff_exists.mp h1
    cases hm : findNode isDescMeta roots with
    | none =>
      simp [extract_metadata, extract_metadata.continueWithTitle, titleResult,
        descResult, ht, hm, hs]
    | some m =>
      rw [hm] at h2
      simp only [] at h2
      obtain ⟨c, hc⟩ := Option.isSome_iff_exists.mp h2
      simp [extract_metadata, extract_metadata.continueWithTitle, titleResult,
        descResult, ht, hm, hs, hc]

/-- Witness for C1 amended, on a page with both nodes present. -/
theorem extract_metadata_amended_witness :
    extract_metadata
        [.elem "title" [] [.text "T"],
         .elem "meta" [("name", "description"), ("content", "D")] []] "u"
      = .ok ⟨titleResult
          [.elem "title" [] [.text "T"],
           .elem "meta" [("name", "description"), ("content", "D")] []], "u",
         descResult
          [.elem "title" [] [.text "T"],
           .elem "meta" [("name", "description"), ("content", "D")] []]⟩ :=
  extract_metadata_amended _ "u"
    (by
      have hf : findNode isTitleNode
          [.elem "title" [] [.text "T"],
           .elem "meta" [("name", "description"), ("content", "D")] []]
          = some (.elem "title" [] [.text "T"]) := by
        simp only [findNode, findAllList]
        rfl
      rw [titleStringOk, hf]
      rfl)
    (by
      have hf : findNode isDescMeta
          [.elem "title" [] [.text "T"],
           .elem "meta" [("name", "description"), ("content", "D")] []]
          = some (.elem "meta" [("name", "description"), ("content", "D")] []) := by
        simp only [findNode, findAllList]
        rfl
      rw [descContentOk, hf]
      rfl)

/-! ## C2 and C10: link destination normalization -/

/-- C2 counterexample: a protocol-relative destination `//other.com` starts
with `/`, so the code resolves it through `urljoin` into
`https://other.com`; the claim says it is passed through unchanged. -/
theorem normalize_url_claim_counterexample :
    normalize_url "https://example.com/x" "//other.com" = "https://other.com" ∧
      ("https://other.com" : String) ≠ "//other.com" :=
  ⟨by decide, by decide⟩

/-- C2 amended: destinations starting with `/` — including protocol-relative
`//host` ones, which become the base's scheme followed by the destination —
are resolved against the page URL; only destinations not starting with `/`
(bare relative paths as well as absolute URLs) pass through unchanged. -/
theorem normalize_url_amended :
    ∀ base url : String,
      (pyStartsWith url "/" = false → normalize_url base url = url) ∧
      (pyStartsWith url "//" = true →
        normalize_url base url = urlScheme base ++ ":" ++ url) ∧
      normalize_url "https://example.com/x" "/about" = "https://example.com/about" ∧
      normalize_url base "https://other.com" = "https://other.com" := by
  intro base url
  refine ⟨fun h => ?_, fun h => ?_, by decide, ?_⟩
  · simp [normalize_url, h]
  · have h1 : pyStartsWith url "/" = true := by
      rw [pyStartsWith] at h ⊢
      rw [List.isPrefixOf_iff_prefix] at h ⊢
      exact List.IsPrefix.trans ⟨['/'], by decide⟩ h
    simp [normalize_url, urljoin, h1, h]
  · have h2 : pyStartsWith "https://other.com" "/" = false := by decide
    simp [normalize_url, h2]

/-- Witness for C2 amended: a bare relative path passes through, a
protocol-relative destination gets the base's scheme. -/
theorem normalize_url_amended_witness :
    normalize_url "https://e.com" "about" = "about" ∧
      normalize_url "https://e.com" "//x" = urlScheme "https://e.com" ++ ":" ++ "//x" :=
  ⟨(normalize_url_amended "https://e.com" "about").1 (by decide),
   (normalize_url_amended "https://e.com" "//x").2.1 (by decide)⟩

theorem urlScheme_of_http (base : String)
    (h : pyStartsWith base "http://" = true ∨ pyStartsWith base "https://" = true) :
    ∃ t, (urlScheme base).data = 'h' :: t := by
  cases h with
  | inl h =>
    rw [pyStartsWith, List.isPrefixOf_iff_prefix] at h
    obtain ⟨t, ht⟩ := h
    refine ⟨['t', 't', 'p'], ?_⟩
    show base.data.takeWhile (fun c => c != ':') = ['h', 't', 't', 'p']
    rw [← ht]
    show List.takeWhile _ (['h', 't', 't', 'p', ':', '/', '/'] ++ t) = _
    simp [List.takeWhile_cons]
  | inr h =>
    rw [pyStartsWith, List.isPrefixOf_iff_prefix] at h
    obtain ⟨t, ht⟩ := h
    refine ⟨['t', 't', 'p', 's'], ?_⟩
    show base.data.takeWhile (fun c => c != ':') = ['h', 't', 't', 'p', 's']
    rw [← ht]
    show List.takeWhile _ (['h', 't', 't', 'p', 's', ':', '/', '/'] ++ t) = _
    simp [List.takeWhile_cons]

theorem urljoin_data_starts_h (base url : String)
    (h : pyStartsWith base "http://" = true ∨ pyStartsWith base "https://" = true) :
    ∃ t, (urljoin base url).data = 'h' :: t := by
  obtain ⟨t0, ht0⟩ := urlScheme_of_http base h
  rw [urljoin]
  by_cases hp : pyStartsWith url "//" = true
  · rw [if_pos hp]
    simp only [String.data_append, ht0]
    exact ⟨_, rfl⟩
  · rw [if_neg hp]
    simp only [String.data_append, ht0]
    exact ⟨_, rfl⟩

/-- C10: destination normalization is idempotent (for a page URL of the
usual absolute `http(s)://` shape, which is where the `urljoin` model is
faithful): a destination starting with `/` resolves to a URL starting with
the base's scheme — hence no longer starting with `/` — and every other
destination passes through unchanged. -/
theorem normalize_url_idempotent (base u : String)
    (h : pyStartsWith base "http://" = true ∨ pyStartsWith base "https://" = true) :
    normalize_url base (normalize_url base u) = normalize_url base u := by
  by_cases hu : pyStartsWith u "/" = true
  · have h2 : normalize_url base u = urljoin base u := by simp [normalize_url, hu]
    rw [h2]
    obtain ⟨t, ht⟩ := urljoin_data_starts_h base u h
    have h3 : pyStartsWith (urljoin base u) "/" = false := by
      rw [pyStartsWith, ht]
      show List.isPrefixOf ['/'] ('h' :: t) = false
      simp [List.isPrefixOf]
    simp [normalize_url, h3]
  · have hu2 : pyStartsWith u "/" = false := by
      simpa using hu
    simp [normalize_url, hu2]

/-- Witness for C10 at a concrete base and destination. -/
theorem normalize_url_idempotent_witness :
    normalize_url "https://example.com/x" (normalize_url "https://example.com/x" "/about")
      = normalize_url "https://example.com/x" "/about" :=
  normalize_url_idempotent "https://example.com/x" "/about" (Or.inr (by decide))

/-! ## C3: the sibling scan of `extract_associated_content` -/

/-- Scan-stop test from the amended claim's wording: the sibling walk stops
at any element whose tag name starts with `h` — which covers `hr`, `header`
and the like, not only the headings `h1`-`h6`. -/
def scanStops (n : Node) : Bool :=
  match n with
  | .text _ => false
  | .elem nm _ _ => pyStartsWith nm "h"

/-- Per-sibling contribution from the amended claim's wording: a `p` element
contributes its trimmed text as one line, a `ul` element contributes one
`- `-prefixed line per `li` descendant, every other sibling contributes
nothing. -/
def siblingContribution (n : Node) : List String :=
  match n with
  | .text _ => []
  | .elem nm _ cs =>
    if nm = "p" then [pyStrip (.mk (getTextData cs))]
    else if nm = "ul" then
      (findAllList isLiNode cs).map fun li => "- " ++ pyStrip (getText li)
    else []

/-- C3 counterexample: the claim says the scan stops exactly at heading
siblings (levels 1-6) and continues past any other sibling type.  The code
stops at every element whose name starts with `h`: after an `hr` sibling, a
following paragraph is never collected. -/
theorem assoc_content_claim_counterexample :
    extract_associated_content [.elem "hr" [] [], .elem "p" [] [.text "X"]] = "" ∧
      ("" : String) ≠ "X" :=
  ⟨rfl, by decide⟩

/-- C3 amended: the body of a section is exactly the concatenated
contributions of the siblings up to (excluding) the first element whose tag
name starts with `h` — not only headings `h1`-`h6`; within that prefix a
paragraph contributes its trimmed text, an unordered list one `- ` line per
`li`, and everything else (including bare text and `ol` lists) is skipped. -/
theorem assoc_content_amended :
    ∀ siblings : List Node,
      extract_associated_content siblings
        = pyJoin "\n"
            (((siblings.takeWhile fun n => !scanStops n).map siblingContribution).flatten) := by
  intro siblings
  rw [extract_associated_content]
  congr 1
  induction siblings with
  | nil => rfl
  | cons n rest ih =>
    cases n with
    | text s =>
      simpa [gatherBody, scanStops, List.takeWhile_cons] using ih
    | elem nm a cs =>
      by_cases h1 : pyStartsWith nm "h"
      · simp [gatherBody, scanStops, h1, List.takeWhile_cons]
      · by_cases h2 : nm = "p"
        · have hp : pyStartsWith "p" "h" = false := by decide
          simp [gatherBody, scanStops, siblingContribution, h1, h2, hp,
            List.takeWhile_cons, ih]
        · by_cases h3 : nm = "ul"
          · have hul : pyStartsWith "ul" "h" = false := by decide
            simp [gatherBody, scanStops, siblingContribution, h1, h2, h3, hul,
              List.takeWhile_cons, ih]
          · simp [gatherBody, scanStops, siblingContribution, h1, h2, h3,
              List.takeWhile_cons, ih]

/-! ## C7: one Section per heading -/

theorem findAllCtx_map_fst (p : Node → Bool) :
    ∀ l : List Node, (findAllCtx p l).map Prod.fst = findAllList p l := by
  have key : ∀ (fuel : Nat) (l : List Node), sizeOf l ≤ fuel →
      (findAllCtx p l).map Prod.fst = findAllList p l := by
    intro fuel
    induction fuel with
    | zero =>
      intro l hl
      cases l with
      | nil => simp [findAllCtx, findAllList]
      | cons hd tl => simp at hl
    | succ n ih =>
      intro l hl
      cases l with
      | nil => simp [findAllCtx, findAllList]
      | cons hd tl =>
        cases hd with
        | text s =>
          rw [findAllCtx, findAllList]
          refine ih tl ?_
          simp at hl
          omega
        | elem nm a cs =>
          rw [findAllCtx, findAllList, List.map_append, List.map_append]
          have hcs : sizeOf cs ≤ n := by
            simp at hl
            omega
          have htl : sizeOf tl ≤ n := by
            simp at hl
            omega
          rw [ih cs hcs, ih tl htl]
          by_cases hp : p (.elem nm a cs)
          · simp [hp]
          · simp [hp]
  intro l
  exact key (sizeOf l) l (Nat.le_refl _)

/-- C7: the extractor emits exactly one Section per heading element
(`h1`-`h6`) that `find_all` returns, in document order, headed by the
heading's trimmed text; consecutive headings give a Section whose body is
empty — a valid value, not an error. -/
theorem extract_sections_one_per_heading :
    (∀ roots : List Node,
      (extract_sections roots).map Section.heading
        = (findAllList isHeadingNode roots).map fun n => pyStrip (getText n)) ∧
      extract_sections [.elem "h1" [] [.text "A"], .elem "h2" [] [.text "B"]]
        = [⟨"A", ""⟩, ⟨"B", ""⟩] := by
  constructor
  · intro roots
    rw [extract_sections, List.map_map, ← findAllCtx_map_fst isHeadingNode roots,
      List.map_map]
    rfl
  · have hc : findAllCtx isHeadingNode
        [.elem "h1" [] [.text "A"], .elem "h2" [] [.text "B"]]
        = [(.elem "h1" [] [.text "A"], [.elem "h2" [] [.text "B"]]),
           (.elem "h2" [] [.text "B"], [])] := by
      simp only [findAllCtx]
      rfl
    rw [extract_sections, hc]
    have g1 : pyStrip (getText (.elem "h1" [] [.text "A"])) = "A" := by
      rw [getText]
      have e1 : getTextData [Node.elem "h1" [] [Node.text "A"]] = "A".data := by
        simp only [getTextData]
        rfl
      rw [e1]
      rfl
    have g2 : pyStrip (getText (.elem "h2" [] [.text "B"])) = "B" := by
      rw [getText]
      have e2 : getTextData [Node.elem "h2" [] [Node.text "B"]] = "B".data := by
        simp only [getTextData]
        rfl
      rw [e2]
      rfl
    have b1 : extract_associated_content [Node.elem "h2" [] [Node.text "B"]] = "" := rfl
    have b2 : extract_associated_content ([] : List Node) = "" := rfl
    simp only [List.map_cons, List.map_nil, g1, g2, b1, b2]

/-! ## C8: tab discovery failures -/

theorem tabLoop_append_fail (post : List TabStep) :
    ∀ (steps : List TabStep) (acc : List TabEntry),
      tabLoop (steps ++ .fail :: post) acc = tabLoop steps acc := by
  intro steps
  induction steps with
  | nil => intro acc; rfl
  | cons s rest ih =>
    intro acc
    cases s with
    | fail => rfl
    | ok name panel => simp [tabLoop, ih]

/-- C8 counterexample: the claim says any failure during discovery makes the
result zero tabs.  A failure on the second tab keeps the entry the first tab
already appended — the error is absorbed, but the result is not empty. -/
theorem tab_discovery_claim_counterexample :
    extract_tab_content (some [.ok "T1" "C1", .fail]) = [⟨"T1", "C1"⟩] ∧
      ([⟨"T1", "C1"⟩] : List TabEntry) ≠ [] :=
  ⟨rfl, by decide⟩

/-- C8 amended: discovery failures never propagate; a step that raises
aborts the remaining scan but keeps the entries collected before it (so a
failure before any successful tab — including the locator itself raising —
yields zero tabs), and a session exposing zero tab-role elements yields the
empty sequence without raising. -/
theorem extract_tab_content_amended :
    ∀ steps post : List TabStep,
      extract_tab_content (some (steps ++ .fail :: post))
          = extract_tab_content (some steps) ∧
        extract_tab_content none = [] ∧
        extract_tab_content (some []) = [] := by
  intro steps post
  exact ⟨tabLoop_append_fail post steps [], rfl, rfl⟩

/-! ## Helper lemmas about stripped and prefixed strings -/

theorem pyStrip_data_head (v : String) (c : Char) (l : List Char)
    (hv : v.data = c :: l) (hc : isPySpace c = false) :
    ∃ t, (pyStrip v).data = c :: t := by
  show ∃ t, ((v.data.dropWhile isPySpace).reverse.dropWhile isPySpace).reverse = c :: t
  rw [hv, List.dropWhile_cons, hc]
  simp only [Bool.false_eq_true, if_false, List.reverse_cons, List.dropWhile_append]
  by_cases he : (l.reverse.dropWhile isPySpace).isEmpty = true
  · rw [if_pos he]
    refine ⟨[], ?_⟩
    rw [List.dropWhile_cons, hc]
    simp
  · rw [if_neg he]
    rw [List.reverse_append]
    refine ⟨(l.reverse.dropWhile isPySpace).reverse, ?_⟩
    simp

theorem pyStartsWith_false_of_head_ne (v p : String) (c d : Char) (tv tp : List Char)
    (hv : v.data = c :: tv) (hp : p.data = d :: tp) (hcd : (d == c) = false) :
    pyStartsWith v p = false := by
  rw [pyStartsWith, hv, hp]
  simp [List.isPrefixOf, hcd]

theorem pyStrip_ne_hash (v : String) (c : Char) (l : List Char)
    (hv : v.data = c :: l) (hc : isPySpace c = false) (hch : c ≠ '#') :
    pyStrip v ≠ "#" := by
  obtain ⟨t, ht⟩ := pyStrip_data_head v c l hv hc
  intro he
  rw [he] at ht
  have ht2 : ('#' :: [] : List Char) = c :: t := ht
  injection ht2 with hh _
  exact hch hh.symm

/-! ## C6: link filtering -/

/-- C6 counterexample: the claim says only anchors with a non-empty
destination attribute are considered.  `find_all('a', href=True)` matches an
anchor whose `href` is present but empty, `is_valid_link("")` accepts it, and
an entry with empty display text and empty destination is produced. -/
theorem extract_links_claim_counterexample :
    extract_links "https://example.com/x" [.elem "a" [("href", "")] []] = [⟨"", ""⟩] ∧
      ([⟨"", ""⟩] : List Link) ≠ [] := by
  constructor
  · have hf : findAllList isAnchorWithHref [.elem "a" [("href", "")] []]
        = [.elem "a" [("href", "")] []] := by
      simp only [findAllList]
      rfl
    rw [extract_links, hf]
    simp [extract_links, getAttr, is_valid_link, normalize_url, getText,
      getTextData, List.lookup, List.filterMap_cons]
    decide
  · decide

/-- C6 amended: every anchor whose `href` attribute is present (even empty)
is considered; an entry survives exactly when `is_valid_link` accepts the raw
`href`, its display text is the trimmed visible text or the raw `href` when
that is empty, and its destination is the normalized `href` — which, for a
page URL of the usual absolute `http(s)://` shape, never starts with
`javascript:`, `mailto:` or `tel:` and never trims to `#`. -/
theorem extract_links_amended :
    ∀ (base : String) (roots : List Node),
      (pyStartsWith base "http://" = true ∨ pyStartsWith base "https://" = true) →
      ∀ l ∈ extract_links base roots,
        pyStartsWith l.targetUrl "javascript:" = false ∧
        pyStartsWith l.targetUrl "mailto:" = false ∧
        pyStartsWith l.targetUrl "tel:" = false ∧
        pyStrip l.targetUrl ≠ "#" ∧
        ∃ a ∈ findAllList isAnchorWithHref roots, ∃ href,
          getAttr a "href" = some href ∧ is_valid_link href = true ∧
          l.displayText
            = (if pyStrip (getText a) = "" then href else pyStrip (getText a)) ∧
          l.targetUrl = normalize_url base href := by
  intro base roots hb l hl
  rw [extract_links] at hl
  obtain ⟨a, ha, he⟩ := List.mem_filterMap.mp hl
  cases hg : getAttr a "href" with
  | none => rw [hg] at he; simp at he
  | some href =>
    rw [hg] at he
    simp only [] at he
    by_cases hv : is_valid_link href = true
    · rw [if_pos hv] at he
      obtain rfl : Link.mk
          (if pyStrip (getText a) = "" then href else pyStrip (getText a))
          (normalize_url base href) = l := Option.some.inj he
      refine ⟨?_, ?_, ?_, ?_, a, ha, href, hg, hv, rfl, rfl⟩ <;>
        by_cases hs : pyStartsWith href "/" = true
      case pos =>
        have h2 : normalize_url base href = urljoin base href := by
          simp [normalize_url, hs]
        obtain ⟨t, ht⟩ := urljoin_data_starts_h base href hb
        show pyStartsWith (normalize_url base href) "javascript:" = false
        rw [h2]
        exact pyStartsWith_false_of_head_ne _ _ 'h' 'j' t _ ht rfl (by decide)
      case neg =>
        have h2 : normalize_url base href = href := by
          simp [normalize_url, hs]
        show pyStartsWith (normalize_url base href) "javascript:" = false
        rw [h2]
        have := hv
        rw [is_valid_link] at this
        simp only [Bool.and_eq_true, Bool.not_eq_eq_eq_not, Bool.not_true] at this
        exact this.1.1.1
      case pos =>
        have h2 : normalize_url base href = urljoin base href := by
          simp [normalize_url, hs]
        obtain ⟨t, ht⟩ := urljoin_data_starts_h base href hb
        show pyStartsWith (normalize_url base href) "mailto:" = false
        rw [h2]
        exact pyStartsWith_false_of_head_ne _ _ 'h' 'm' t _ ht rfl (by decide)
      case neg =>
        have h2 : normalize_url base href = href := by
          simp [normalize_url, hs]
        show pyStartsWith (normalize_url base href) "mailto:" = false
        rw [h2]
        have := hv
        rw [is_valid_link] at this
        simp only [Bool.and_eq_true, Bool.not_eq_eq_eq_not, Bool.not_true] at this
        exact this.1.1.2
      case pos =>
        have h2 : normalize_url base href = urljoin base href := by
          simp [normalize_url, hs]
        obtain ⟨t, ht⟩ := urljoin_data_starts_h base href hb
        show pyStartsWith (normalize_url base href) "tel:" = false
        rw [h2]
        exact pyStartsWith_false_of_head_ne _ _ 'h' 't' t _ ht rfl (by decide)
      case neg =>
        have h2 : normalize_url base href = href := by
          simp [normalize_url, hs]
        show pyStartsWith (normalize_url base href) "tel:" = false
        rw [h2]
        have := hv
        rw [is_valid_link] at this
        simp only [Bool.and_eq_true, Bool.not_eq_eq_eq_not, Bool.not_true] at this
        exact this.1.2
      case pos =>
        have h2 : normalize_url base href = urljoin base href := by
          simp [normalize_url, hs]
        obtain ⟨t, ht⟩ := urljoin_data_starts_h base href hb
        show pyStrip (normalize_url base href) ≠ "#"
        rw [h2]
        exact pyStrip_ne_hash _ 'h' t ht (by decide) (by decide)
      case neg =>
        have h2 : normalize_url base href = href := by
          simp [normalize_url, hs]
        show pyStrip (normalize_url base href) ≠ "#"
        rw [h2]
        have := hv
        rw [is_valid_link] at this
        simp only [Bool.and_eq_true, bne_iff_ne] at this
        exact this.2
    · rw [if_neg hv] at he
      simp at he

/-- Witness for C6 amended at a concrete page: the single root-relative link
resolves under the page URL and passes every filter. -/
theorem extract_links_amended_witness :
    pyStartsWith (Link.targetUrl ⟨"About", "https://example.com/about"⟩)
        "javascript:" = false ∧
      pyStartsWith (Link.targetUrl ⟨"About", "https://example.com/about"⟩)
        "mailto:" = false ∧
      pyStartsWith (Link.targetUrl ⟨"About", "https://example.com/about"⟩)
        "tel:" = false ∧
      pyStrip (Link.targetUrl ⟨"About", "https://example.com/about"⟩) ≠ "#" ∧
      ∃ a ∈ findAllList isAnchorWithHref
          [.elem "a" [("href", "/about")] [.text "About"]], ∃ href,
        getAttr a "href" = some href ∧ is_valid_link href = true ∧
        Link.displayText ⟨"About", "https://example.com/about"⟩
          = (if pyStrip (getText a) = "" then href else pyStrip (getText a)) ∧
        Link.targetUrl ⟨"About", "https://example.com/about"⟩
          = normalize_url "https://example.com/x" href := by
  refine extract_links_amended "https://example.com/x"
    [.elem "a" [("href", "/about")] [.text "About"]] (Or.inr (by decide))
    ⟨"About", "https://example.com/about"⟩ ?_
  have hf : findAllList isAnchorWithHref [.elem "a" [("href", "/about")] [.text "About"]]
      = [.elem "a" [("href", "/about")] [.text "About"]] := by
    simp only [findAllList]
    rfl
  have he : getTextData [Node.elem "a" [("href", "/about")] [Node.text "About"]]
      = "About".data := by
    simp only [getTextData]
    rfl
  have hval : extract_links "https://example.com/x"
      [.elem "a" [("href", "/about")] [.text "About"]]
      = [⟨"About", "https://example.com/about"⟩] := by
    rw [extract_links, hf]
    simp only [List.filterMap_cons, getAttr, getText, he, List.lookup,
      List.filterMap_nil]
    rfl
  rw [hval]
  exact List.mem_singleton.mpr rfl

/-! ## C9: PDF rendering of links and tabs -/

/-- Text carried by one layout command, when any. -/
def cmdText : PdfCmd → Option String
  | .cell t => some t
  | .multiCell t => some t
  | _ => none

/-- Commands of a successful render; the empty list for a failed one. -/
def cmdsOf (r : Except String (List PdfCmd)) : List PdfCmd :=
  match r with
  | .ok cmds => cmds
  | .error _ => []

theorem addPage_not_mem_itemCmds (i : ContentItem) : PdfCmd.addPage ∉ itemCmds i := by
  cases i <;> simp [itemCmds]

/-- C9 counterexample: the claim says a "Links" label is emitted before the
link lines.  On a document with one link the renderer succeeds, emits the
`"{displayText} -> {targetUrl}"` line, and emits no command whose text is
`"Links"`. -/
theorem generate_pdf_claim_counterexample :
    generate_pdf [.metadata "T" "https://x.test/" "D", .link "Link" "https://x.test/l"] []
        = .ok (cmdsOf (generate_pdf
            [.metadata "T" "https://x.test/" "D", .link "Link" "https://x.test/l"] [])) ∧
      ((cmdsOf (generate_pdf
            [.metadata "T" "https://x.test/" "D", .link "Link" "https://x.test/l"] [])).all
          fun c => !(cmdText c == some "Links")) = true ∧
      ((cmdsOf (generate_pdf
            [.metadata "T" "https://x.test/" "D", .link "Link" "https://x.test/l"] [])).any
          fun c => cmdText c == some (clean_text "Link -> https://x.test/l")) = true :=
  ⟨rfl, by decide, by decide⟩

/-- C9 amended: the renderer emits no "Links" label — each link is rendered
directly as `"{displayText} -> {targetUrl}"` between a switch to blue and a
switch back to black; when tabs exist a page break is forced and a
"Tabbed Content" title emitted before the tab entries, and when the tab
sequence is empty no page break is emitted at all. -/
theorem generate_pdf_amended :
    ∀ (t u d : String) (items : List ContentItem) (tabs : List TabEntry)
      (cmds : List PdfCmd),
      generate_pdf (.metadata t u d :: items) tabs = .ok cmds →
      ((tabs = [] → PdfCmd.addPage ∉ cmds) ∧
        (tabs ≠ [] →
          [PdfCmd.addPage, .setFont "Arial" "B" 16, .cell "Tabbed Content"] <:+: cmds) ∧
        (∀ lt lu, ContentItem.link lt lu ∈ items →
          [PdfCmd.setTextColor 0 0 255, .cell (clean_text (lt ++ " -> " ++ lu)),
           .setTextColor 0 0 0] <:+: cmds)) := by
  intro t u d items tabs cmds h
  have hf : (ContentItem.metadata t u d :: items).find? isMetadataItem
      = some (.metadata t u d) := rfl
  rw [generate_pdf, hf] at h
  have hc : cmds
      = metaBlock t u d ++ (ContentItem.metadata t u d :: items).flatMap itemCmds
          ++ tabBlock tabs := (Except.ok.inj h).symm
  subst hc
  refine ⟨?_, ?_, ?_⟩
  · intro h1
    subst h1
    intro hmem
    rw [tabBlock] at hmem
    simp only [if_pos, List.append_nil, List.mem_append, metaBlock,
      List.mem_cons, List.mem_flatMap, List.not_mem_nil, or_false] at hmem
    rcases hmem with hmem | hmem
    · simp at hmem
    · obtain ⟨i, _, hin⟩ := hmem
      exact addPage_not_mem_itemCmds i hin
  · intro h1
    rw [tabBlock, if_neg h1]
    refine ⟨metaBlock t u d ++ (ContentItem.metadata t u d :: items).flatMap itemCmds,
      PdfCmd.ln 5 :: (tabs.flatMap fun tab =>
        [.setFont "Arial" "B" 14, .cell (clean_text tab.label),
         .setFont "Arial" "" 12, .multiCell (clean_text tab.content), .ln 5]), ?_⟩
    simp
  · intro lt lu hmem
    obtain ⟨s, t2, rfl⟩ := List.append_of_mem hmem
    refine ⟨metaBlock t u d ++ itemCmds (.metadata t u d) ++ s.flatMap itemCmds,
      t2.flatMap itemCmds ++ tabBlock tabs, ?_⟩
    have hexp : (ContentItem.metadata t u d :: (s ++ ContentItem.link lt lu :: t2)).flatMap
        itemCmds
        = itemCmds (.metadata t u d) ++ s.flatMap itemCmds
            ++ itemCmds (.link lt lu) ++ t2.flatMap itemCmds := by
      simp [List.flatMap_cons, List.flatMap_append, List.append_assoc]
    rw [hexp]
    show _ ++ [PdfCmd.setTextColor 0 0 255, .cell (clean_text (lt ++ " -> " ++ lu)),
      .setTextColor 0 0 0] ++ _ = _
    simp [itemCmds, List.append_assoc]

/-- Witness for C9 amended on a concrete document with one link and one tab. -/
theorem generate_pdf_amended_witness :
    [PdfCmd.addPage, .setFont "Arial" "B" 16, .cell "Tabbed Content"]
        <:+: cmdsOf (generate_pdf [.metadata "T" "u" "D", .link "A" "B"] [⟨"L", "C"⟩]) ∧
      [PdfCmd.setTextColor 0 0 255, .cell (clean_text ("A" ++ " -> " ++ "B")),
       .setTextColor 0 0 0]
        <:+: cmdsOf (generate_pdf [.metadata "T" "u" "D", .link "A" "B"] [⟨"L", "C"⟩]) := by
  have h := generate_pdf_amended "T" "u" "D" [.link "A" "B"] [⟨"L", "C"⟩]
    (cmdsOf (generate_pdf [.metadata "T" "u" "D", .link "A" "B"] [⟨"L", "C"⟩])) rfl
  exact ⟨h.2.1 (by decide), h.2.2 "A" "B" (by decide)⟩

end Scraper
